import Mathlib

/-!
Shallow embedding of `src/psp/dataset/tokenizer.py` (classes `Tokenizer` and
`PointerTokenizer`), together with models of the Python / PyTorch / HuggingFace
primitives the file uses.  Definitions are translated from the source; the
external collaborators (the pretrained `BartTokenizer`, Python `dict` and `set`,
torch tensor indexing) are modelled by their documented behaviour.
-/

namespace PSP

/-! ### Model of Python decimal formatting of a non-negative int

`"@ptr{}".format(x)` renders `x` in decimal.  `digitsLE` computes the
little-endian decimal digits with an explicit fuel argument (so that the
definition is structurally recursive and kernel-reducible). -/

def digitsLE : Nat → Nat → List Nat
  | 0, _ => []
  | fuel + 1, n => if n = 0 then [] else n % 10 :: digitsLE fuel (n / 10)

/-- Decimal rendering of a natural number, as Python's `str`/`format` does. -/
def pyIntStr (n : Nat) : String :=
  if n = 0 then "0" else ((digitsLE n n).reverse.map Nat.digitChar).asString

/-! ### Model of Python `dict` (insertion-ordered, overriding on key reuse)
and `list(set(...))`. -/

/-- Python `d[k] = v`: overrides in place if `k` is present, appends otherwise. -/
def pyDictInsert {κ ν : Type} [DecidableEq κ] (m : List (κ × ν)) (k : κ) (v : ν) :
    List (κ × ν) :=
  if k ∈ m.map Prod.fst then
    m.map (fun kv => if kv.1 = k then (k, v) else kv)
  else m ++ [(k, v)]

/-- Python `d[k]` lookup; `none` models a `KeyError`. -/
def pyDictGet {κ ν : Type} [DecidableEq κ] (m : List (κ × ν)) (k : κ) : Option ν :=
  (m.find? (fun kv => kv.1 = k)).map Prod.snd

/-- Build a Python dict from an ordered list of key/value pairs. -/
def pyDictOf {κ ν : Type} [DecidableEq κ] (l : List (κ × ν)) : List (κ × ν) :=
  l.foldl (fun m kv => pyDictInsert m kv.1 kv.2) []

/-- The iteration order of a Python `set` of strings is determined by the
interpreter's (randomized) string hashing; it is modelled as a function `σ`
producing some permutation.  `list(set(l))` deduplicates `l` and emits the
distinct elements in the interpreter-chosen order `σ`. -/
def SetOrder : Type := List String → List String

/-- A set order is any interpreter behaviour that emits exactly the distinct
elements, i.e. a permutation of its (duplicate-free) input. -/
def ValidSetOrder (σ : SetOrder) : Prop := ∀ l : List String, (σ l).Perm l

/-- Model of Python `list(set(l))` under interpreter behaviour `σ`. -/
def pyListSet (σ : SetOrder) (l : List String) : List String := σ l.dedup

/-! ### Model of torch tensor indexing

`t[i]` for a 1-D tensor allows negative indices (counting from the end) and
raises `IndexError` (modelled by `none`) out of range. -/

def torchIndex {α : Type} (arr : List α) (i : Int) : Option α :=
  let j : Int := if i < 0 then (arr.length : Int) + i else i
  if 0 ≤ j then arr[j.toNat]? else none

/-- Model of `arr[idx] = torch.arange(len(idx))` (advanced-indexing assignment,
performed as sequential elementwise writes): position `idx[i]` receives value
`i`.  Writes outside the array are dropped (the construction in the source only
produces in-range indices). -/
def scatterFrom : Nat → List Nat → List Int → List Int
  | _, [], arr => arr
  | i, v :: rest, arr => scatterFrom (i + 1) rest (arr.set v (i : Int))

def scatterArange (idx : List Nat) (arr : List Int) : List Int := scatterFrom 0 idx arr

/-! ### Model of the external pretrained `BartTokenizer`

Treated per the spec as an external collaborator: a vocabulary assigning each
token the next integer id, append-only extension via `add_tokens` (which skips
tokens already present), and `encode` of a list of (special) tokens producing
`bos :: ids ++ [eos]`. -/

structure HFTokenizer where
  vocab : List String
  bos_token_id : Nat
  eos_token_id : Nat
  pad_token_id : Nat
  unk_token_id : Nat
  model_max_length : Nat
deriving DecidableEq

namespace HFTokenizer

/-- Model of `convert_tokens_to_ids` for a single token: its id if registered, the
unknown-token id otherwise. -/
def tokToId (t : HFTokenizer) (tok : String) : Nat :=
  if tok ∈ t.vocab then List.indexOf tok t.vocab else t.unk_token_id

/-- Model of `add_tokens`: appends each token not already present, in order. -/
def add_tokens (t : HFTokenizer) (toks : List String) : HFTokenizer :=
  toks.foldl
    (fun s tok => if tok ∈ s.vocab then s else { s with vocab := s.vocab ++ [tok] }) t

/-- Model of `encode` on a list of added special tokens: bos, the token ids, eos. -/
def encode (t : HFTokenizer) (toks : List String) : List Nat :=
  t.bos_token_id :: toks.map t.tokToId ++ [t.eos_token_id]

/-- Model of `len(tokenizer)`. -/
def size (t : HFTokenizer) : Nat := t.vocab.length

end HFTokenizer

/-! ### The ontology source and the missing `psp.constants` values -/

/-- Modelled from the spec: `EOSPAN_TOKEN` lives in `psp.constants`, which is
not under `src/`; the class docstring and the spec say the span-closing
delimiter is the token "]". -/
def EOSPAN_TOKEN : String := "]"

/-- Modelled from the spec: the `DatasetPaths` enum of `psp.constants` is not
under `src/`; the spec's configuration interface says exactly one dataset kind
is supported and any other kind is rejected.  `unsupported s` stands for any
enum member other than `TOPv2`. -/
inductive DatasetPaths where
  | TOPv2 : DatasetPaths
  | unsupported : String → DatasetPaths
deriving DecidableEq

/-- The unpickled `ontology_per_domain_map`: domain name ↦ (intents, slots). -/
structure Ontology where
  domains : List (String × List String × List String)

/-- All token strings the ontology contributes, in source-traversal order
(intents of every domain, then slots of every domain, then the delimiter). -/
def ontoIntents (o : Ontology) : List String := (o.domains.map (fun d => d.2.1)).flatten

def ontoSlots (o : Ontology) : List String := (o.domains.map (fun d => d.2.2)).flatten

def ontoSource (o : Ontology) : List String :=
  ontoIntents o ++ ontoSlots o ++ [EOSPAN_TOKEN]

/-! ### The `Tokenizer` class

Each attribute assigned by `__init__` / `_read_topv2_ontology_vocabs` becomes a
field.  The source's `ontology_vocab_size` property reads `self.ontology_list`,
an attribute that is never assigned (only a local variable `ontology_list`
exists in `_read_topv2_ontology_vocabs`); the field `ontology_list_attr` keeps
the attribute's state, and it is `none` (absent, so that reading it raises
`AttributeError`).  A stored value `none` inside the id maps marks an iteration
at which the source's `ontology_to_id_map[key]` lookup would raise `KeyError`;
under any valid set order every such lookup succeeds. -/

structure TokenizerState where
  tokenizer : HFTokenizer
  ontology_per_domain_map : List (String × List String × List String)
  intent_list : List String
  slot_list : List String
  ontology_id_list : List Nat
  eospan_token_id : Option Nat
  intent_to_id_map : List (String × Option Nat)
  id_to_intent_map : List (Option Nat × String)
  slot_to_id_map : List (String × Option Nat)
  id_to_slot_map : List (Option Nat × String)
  ontology_list_attr : Option (List String)

/-- Translation of `_read_topv2_ontology_vocabs`, after the pickle has been read into `onto`;
`σ` is the interpreter's set-iteration behaviour. -/
def read_topv2_ontology_vocabs (σ : SetOrder) (t : HFTokenizer) (onto : Ontology) :
    TokenizerState :=
  let intent_list := pyListSet σ (ontoIntents onto)
  let slot_list := pyListSet σ (ontoSlots onto)
  let ontology_list := pyListSet σ (intent_list ++ slot_list ++ [EOSPAN_TOKEN])
  let t1 := t.add_tokens ontology_list
  let ontology_id_list := ((t1.encode ontology_list).drop 1).dropLast
  let ontology_to_id_map := pyDictOf (ontology_list.zip ontology_id_list)
  { tokenizer := t1
    ontology_per_domain_map := onto.domains
    intent_list := intent_list
    slot_list := slot_list
    ontology_id_list := ontology_id_list
    eospan_token_id := pyDictGet ontology_to_id_map EOSPAN_TOKEN
    intent_to_id_map :=
      intent_list.foldl (fun m k => pyDictInsert m k (pyDictGet ontology_to_id_map k)) []
    id_to_intent_map :=
      intent_list.foldl (fun m k => pyDictInsert m (pyDictGet ontology_to_id_map k) k) []
    slot_to_id_map :=
      slot_list.foldl (fun m k => pyDictInsert m k (pyDictGet ontology_to_id_map k)) []
    id_to_slot_map :=
      slot_list.foldl (fun m k => pyDictInsert m (pyDictGet ontology_to_id_map k) k) []
    ontology_list_attr := none }

/-- Translation of `Tokenizer.__init__`.  The first component is the constructed object (or
the raised exception); the second is the vocabulary state at the moment control
leaves `__init__` — on the unsupported-dataset branch the `raise` happens
before `_read_topv2_ontology_vocabs`, the only vocabulary mutator, so the
pretrained vocabulary is returned untouched. -/
def Tokenizer.init (σ : SetOrder) (pretrained : HFTokenizer) (dataset_path : DatasetPaths)
    (onto : Ontology) : Except String TokenizerState × HFTokenizer :=
  match dataset_path with
  | DatasetPaths.TOPv2 =>
      let st := read_topv2_ontology_vocabs σ pretrained onto
      (Except.ok st, st.tokenizer)
  | DatasetPaths.unsupported _ =>
      (Except.error "ValueError: unsupported dataset", pretrained)

namespace TokenizerState

def vocab_size (st : TokenizerState) : Nat := st.tokenizer.size

def ontology_vocab_ids (st : TokenizerState) : List Nat := st.ontology_id_list

/-- Accessor `ontology_vocab_size`: it returns `len(self.ontology_list)`; reading the absent
attribute `self.ontology_list` raises `AttributeError`, modelled by `none`. -/
def ontology_vocab_size (st : TokenizerState) : Option Nat :=
  st.ontology_list_attr.map List.length

def num_intent (st : TokenizerState) : Nat := st.intent_list.length

def num_slot (st : TokenizerState) : Nat := st.slot_list.length

def intent_id_list (st : TokenizerState) : List (Option Nat) :=
  st.intent_to_id_map.map Prod.snd

def slot_id_list (st : TokenizerState) : List (Option Nat) :=
  st.slot_to_id_map.map Prod.snd

end TokenizerState

/-! ### The `PointerTokenizer` subclass -/

structure PointerTokenizerState extends TokenizerState where
  pointer_to_id_map : List (String × Nat)
  id_to_pointer_map : List (Nat × String)
  pointers_to_vocabs : List Nat
  vocabs_to_pointers : List Int

/-- The list comprehension generating `@ptr0 .. @ptr(M-1)`. -/
def pointer_set (M : Nat) : List String :=
  (List.range M).map (fun x => "@ptr" ++ pyIntStr x)

/-- Translation of `_add_special_pointer_vocabs`. -/
def add_special_pointer_vocabs (st : TokenizerState) : PointerTokenizerState :=
  let ps := pointer_set st.tokenizer.model_max_length
  let t1 := st.tokenizer.add_tokens ps
  let pointer_id_list := ((t1.encode ps).drop 1).dropLast
  let p2v := pointer_id_list ++ st.ontology_id_list ++
      [t1.eos_token_id, t1.bos_token_id, t1.pad_token_id, t1.unk_token_id]
  { toTokenizerState := { st with tokenizer := t1 }
    pointer_to_id_map := pyDictOf (ps.zip pointer_id_list)
    id_to_pointer_map := pyDictOf ((ps.zip pointer_id_list).map (fun pi => (pi.2, pi.1)))
    pointers_to_vocabs := p2v
    vocabs_to_pointers := scatterArange p2v (List.replicate t1.size (-1 : Int)) }

/-- Translation of `PointerTokenizer.__init__`: the parent constructor, then
`_add_special_pointer_vocabs`. -/
def PointerTokenizer.init (σ : SetOrder) (pretrained : HFTokenizer)
    (dataset_path : DatasetPaths) (onto : Ontology) :
    Except String PointerTokenizerState × HFTokenizer :=
  match Tokenizer.init σ pretrained dataset_path onto with
  | (Except.ok st, _) =>
      let pt := add_special_pointer_vocabs st
      (Except.ok pt, pt.tokenizer)
  | (Except.error e, t) => (Except.error e, t)

namespace PointerTokenizerState

def map_pointer_to_id (pt : PointerTokenizerState) (ptr : String) : Option Nat :=
  pyDictGet pt.pointer_to_id_map ptr

def map_id_to_poitner (pt : PointerTokenizerState) (i : Nat) : Option String :=
  pyDictGet pt.id_to_pointer_map i

def pointer_list (pt : PointerTokenizerState) : List String :=
  pt.pointer_to_id_map.map Prod.fst

def pointer_set_size (pt : PointerTokenizerState) : Nat :=
  pt.pointer_to_id_map.length

/-- Accessor `output_vocab_size = self.ontology_vocab_size + self.pointer_set_size + 4`;
it propagates the `AttributeError` of `ontology_vocab_size`. -/
def output_vocab_size (pt : PointerTokenizerState) : Option Nat :=
  pt.ontology_vocab_size.map (fun k => k + pt.pointer_set_size + 4)

/-- Method `transform`, elementwise on a single id (`none` = `IndexError`). -/
def transform (pt : PointerTokenizerState) (x : Int) : Option Int :=
  torchIndex pt.vocabs_to_pointers x

/-- Method `reverse_transform`, elementwise on a single compact id. -/
def reverse_transform (pt : PointerTokenizerState) (y : Int) : Option Nat :=
  torchIndex pt.pointers_to_vocabs y

/-- Method `transform` on a whole tensor of ids. -/
def transformTensor (pt : PointerTokenizerState) (l : List Int) : Option (List Int) :=
  l.mapM pt.transform

/-- Method `batch_encode_vocabs_to_pointers`: the external subword encoder
`batch_encode_plus` (a parameter, out of scope per the spec) produces a batch
dict; the method overwrites its `input_ids` entry with the transformed ids and
returns everything else as-is. -/
def batch_encode_vocabs_to_pointers (pt : PointerTokenizerState)
    (encodePlus : List String → List (String × List Int)) (sequences : List String) :
    Option (List (String × List Int)) :=
  let pointer_parse := encodePlus sequences
  match pyDictGet pointer_parse "input_ids" with
  | none => none
  | some ids => (pt.transformTensor ids).map (fun ids2 => pyDictInsert pointer_parse "input_ids" ids2)

/-- Method `batch_decode_pointers_to_vocabs`. -/
def batch_decode_pointers_to_vocabs (pt : PointerTokenizerState) (inputs : List Int) :
    Option (List Nat) :=
  inputs.mapM pt.reverse_transform

end PointerTokenizerState

/-! ### Model of the Python `property` protocol

A getter is a function declared with some number of positional parameters
(`self` included).  Attribute access on a `property` invokes the getter with
exactly one argument, `self`; Python raises `TypeError` when the call does not
supply every required positional parameter. -/

structure PyGetter (α γ β : Type) where
  arity : Nat
  impl : α → List γ → Option β

def PyGetter.callOn {α γ β : Type} (g : PyGetter α γ β) (self : α) (args : List γ) :
    Except String β :=
  if g.arity = args.length + 1 then
    match g.impl self args with
    | some b => Except.ok b
    | none => Except.error "KeyError"
  else Except.error "TypeError: missing a required positional argument"

/-- Property access `obj.p`: the getter receives `self` and nothing else. -/
def propertyGet {α γ β : Type} (g : PyGetter α γ β) (self : α) : Except String β :=
  g.callOn self []

/-- Getter `def map_id_to_intent(self, id) -> str` under `@property` (two positional
parameters). -/
def map_id_to_intent : PyGetter TokenizerState Nat String :=
  ⟨2, fun st args =>
    match args with
    | [i] => pyDictGet st.id_to_intent_map (some i)
    | _ => none⟩

/-- Getter `def map_id_to_slot(self, id) -> str` under `@property`. -/
def map_id_to_slot : PyGetter TokenizerState Nat String :=
  ⟨2, fun st args =>
    match args with
    | [i] => pyDictGet st.id_to_slot_map (some i)
    | _ => none⟩

/-- Getter `def map_intent_to_id(self, key) -> int` under `@property`; its body
subscripts the property `self.map_intent_to_id` itself, which would raise
`TypeError` in turn, so the body (never reached) is modelled as raising. -/
def map_intent_to_id : PyGetter TokenizerState String Nat :=
  ⟨2, fun _ _ => none⟩

/-- Getter `def map_slot_to_id(self, key) -> int` under `@property`; body as above. -/
def map_slot_to_id : PyGetter TokenizerState String Nat :=
  ⟨2, fun _ _ => none⟩

/-! ## Lemmas about the primitive models -/

/-! ### Decimal rendering is injective -/

/-- Value of a little-endian digit list. -/
def ofDigitsLE : List Nat → Nat
  | [] => 0
  | d :: l => d + 10 * ofDigitsLE l

theorem ofDigitsLE_digitsLE (f : Nat) : ∀ n : Nat, n ≤ f → ofDigitsLE (digitsLE f n) = n := by
  induction f with
  | zero =>
      intro n h
      have hn : n = 0 := by omega
      subst hn
      rfl
  | succ f ih =>
      intro n h
      by_cases hn : n = 0
      · subst hn; rfl
      · have hdiv : n / 10 ≤ f := by
          have : n / 10 < n := Nat.div_lt_self (Nat.pos_of_ne_zero hn) (by omega)
          omega
        simp only [digitsLE, hn, if_false, ofDigitsLE, ih (n / 10) hdiv]
        omega

theorem digitsLE_lt_ten (f : Nat) : ∀ n : Nat, ∀ d ∈ digitsLE f n, d < 10 := by
  induction f with
  | zero => intro n d hd; simp [digitsLE] at hd
  | succ f ih =>
      intro n d hd
      by_cases hn : n = 0
      · simp [digitsLE, hn] at hd
      · simp only [digitsLE, hn, if_false, List.mem_cons] at hd
        rcases hd with h | h
        · omega
        · exact ih _ _ h

/-- Digit value of a decimal character. -/
def charToDigit (c : Char) : Nat := c.toNat - 48

theorem charToDigit_digitChar : ∀ d : Nat, d < 10 → charToDigit (Nat.digitChar d) = d := by
  decide

/-- Reading a decimal string back. -/
def pyParse (s : String) : Nat := ofDigitsLE ((s.data.map charToDigit).reverse)

theorem pyParse_pyIntStr (n : Nat) : pyParse (pyIntStr n) = n := by
  by_cases hn : n = 0
  · subst hn; rfl
  · unfold pyIntStr pyParse
    simp only [hn, if_false]
    have hdata : (((digitsLE n n).reverse.map Nat.digitChar).asString).data
        = (digitsLE n n).reverse.map Nat.digitChar := rfl
    rw [hdata, List.map_map]
    have hid : (digitsLE n n).reverse.map (charToDigit ∘ Nat.digitChar)
        = (digitsLE n n).reverse.map id := by
      apply List.map_congr_left
      intro d hd
      have : d ∈ digitsLE n n := List.mem_reverse.mp hd
      exact charToDigit_digitChar d (digitsLE_lt_ten n n d this)
    rw [hid, List.map_id, List.reverse_reverse, ofDigitsLE_digitsLE n n (Nat.le_refl n)]

theorem pyIntStr_injective : Function.Injective pyIntStr := by
  intro m n h
  have hm := pyParse_pyIntStr m
  rw [h, pyParse_pyIntStr] at hm
  omega

/-- Distinct positions give distinct pointer-token strings. -/
theorem pointerToken_injective : Function.Injective (fun n : Nat => "@ptr" ++ pyIntStr n) := by
  intro m n h
  apply pyIntStr_injective
  have h2 := congrArg String.data h
  simp only [String.data_append] at h2
  exact String.ext (List.append_cancel_left h2)

theorem pointer_set_nodup (M : Nat) : (pointer_set M).Nodup :=
  (List.nodup_range M).map pointerToken_injective

theorem pointer_set_length (M : Nat) : (pointer_set M).length = M := by
  simp [pointer_set]

theorem pointer_set_getElem (M n : Nat) (h : n < (pointer_set M).length) :
    (pointer_set M)[n] = "@ptr" ++ pyIntStr n := by
  simp [pointer_set]

/-! ### The scatter assignment -/

theorem scatterFrom_length (idx : List Nat) :
    ∀ (i : Nat) (arr : List Int), (scatterFrom i idx arr).length = arr.length := by
  induction idx with
  | nil => intro i arr; rfl
  | cons v rest ih => intro i arr; simp [scatterFrom, ih]

theorem scatterFrom_getElem?_not_mem (idx : List Nat) :
    ∀ (i : Nat) (arr : List Int) (x : Nat), x ∉ idx →
      (scatterFrom i idx arr)[x]? = arr[x]? := by
  induction idx with
  | nil => intro i arr x _; rfl
  | cons v rest ih =>
      intro i arr x hx
      simp only [List.mem_cons, not_or] at hx
      rw [scatterFrom, ih _ _ _ hx.2, List.getElem?_set_ne (fun h => hx.1 h.symm)]

theorem scatterFrom_getElem?_mem (idx : List Nat) :
    ∀ (i : Nat) (arr : List Int) (j : Nat) (hj : j < idx.length), idx.Nodup →
      idx[j] < arr.length →
      (scatterFrom i idx arr)[idx[j]]? = some ((i + j : Nat) : Int) := by
  induction idx with
  | nil => intro i arr j hj; simp at hj
  | cons v rest ih =>
      intro i arr j hj hnd hlt
      rcases List.nodup_cons.mp hnd with ⟨hv, hrest⟩
      match j with
      | 0 =>
          have hv' : v < arr.length := hlt
          rw [scatterFrom]
          show (scatterFrom (i + 1) rest (arr.set v (i : Int)))[v]? = some ((i + 0 : Nat) : Int)
          rw [scatterFrom_getElem?_not_mem rest _ _ _ hv, List.getElem?_set_self hv',
            Nat.add_zero]
      | k + 1 =>
          have hk : k < rest.length := by simpa using hj
          have hknat : (v :: rest)[k + 1] = rest[k] := rfl
          rw [scatterFrom, hknat]
          have hlt' : rest[k] < (arr.set v (i : Int)).length := by
            simpa using hlt
          rw [ih (i + 1) _ k hk hrest hlt']
          have he : i + 1 + k = i + (k + 1) := by omega
          rw [he]

/-! ### Python dict lemmas -/

theorem find?_key_none {κ ν : Type} [DecidableEq κ] (m : List (κ × ν)) (k : κ)
    (h : k ∉ m.map Prod.fst) : m.find? (fun kv => kv.1 = k) = none := by
  induction m with
  | nil => rfl
  | cons hd tl ih =>
      simp only [List.map_cons, List.mem_cons, not_or] at h
      rw [List.find?_cons_of_neg _ (by simp; exact fun he => h.1 he.symm), ih h.2]

theorem find?_map_replace_of_mem {κ ν : Type} [DecidableEq κ] (k : κ) (v : ν) :
    ∀ m : List (κ × ν), k ∈ m.map Prod.fst →
      (m.map (fun kv => if kv.1 = k then (k, v) else kv)).find? (fun kv => kv.1 = k)
        = some (k, v) := by
  intro m
  induction m with
  | nil => intro h; simp at h
  | cons hd tl ih =>
      intro hmem
      by_cases hhd : hd.1 = k
      · rw [List.map_cons, List.find?_cons_of_pos _ (by simp [hhd])]
        simp [hhd]
      · have hmem' : k ∈ tl.map Prod.fst := by
          simp only [List.map_cons, List.mem_cons] at hmem
          rcases hmem with h | h
          · exact absurd h.symm hhd
          · exact h
        rw [List.map_cons, List.find?_cons_of_neg _ (by simp [hhd]), ih hmem']

theorem find?_map_replace_of_ne {κ ν : Type} [DecidableEq κ] (k k' : κ) (v : ν) (hne : k' ≠ k) :
    ∀ m : List (κ × ν),
      (m.map (fun kv => if kv.1 = k then (k, v) else kv)).find? (fun kv => kv.1 = k')
        = m.find? (fun kv => kv.1 = k') := by
  intro m
  induction m with
  | nil => rfl
  | cons hd tl ih =>
      by_cases hhd : hd.1 = k
      · rw [List.map_cons,
          List.find?_cons_of_neg _ (by simp [hhd]; exact fun he => hne he.symm),
          List.find?_cons_of_neg _ (by simp [hhd]; exact fun he => hne he.symm), ih]
      · by_cases hp : hd.1 = k'
        · rw [List.map_cons,
            List.find?_cons_of_pos _ (by simp only [if_neg hhd, decide_eq_true_eq]; exact hp),
            List.find?_cons_of_pos _ (by simp [hp])]
          simp [hhd]
        · rw [List.map_cons, List.find?_cons_of_neg _ (by simp [hhd, hp]),
            List.find?_cons_of_neg _ (by simp [hp]), ih]

theorem pyDictGet_insert_self {κ ν : Type} [DecidableEq κ] (m : List (κ × ν)) (k : κ) (v : ν) :
    pyDictGet (pyDictInsert m k v) k = some v := by
  unfold pyDictInsert
  split
  next hmem =>
    unfold pyDictGet
    rw [find?_map_replace_of_mem k v m hmem]
    rfl
  next hmem =>
    unfold pyDictGet
    rw [List.find?_append, find?_key_none m k hmem,
      List.find?_cons_of_pos _ (by simp)]
    rfl

theorem pyDictGet_insert_ne {κ ν : Type} [DecidableEq κ] (m : List (κ × ν)) (k k' : κ) (v : ν)
    (hne : k' ≠ k) : pyDictGet (pyDictInsert m k v) k' = pyDictGet m k' := by
  unfold pyDictInsert
  split
  next =>
    unfold pyDictGet
    rw [find?_map_replace_of_ne k k' v hne m]
  next =>
    unfold pyDictGet
    rw [List.find?_append,
      List.find?_cons_of_neg _ (by simp; exact fun he => hne he.symm)]
    simp [Option.or_none]

theorem foldl_pyDictInsert_fresh {κ ν : Type} [DecidableEq κ] (l : List (κ × ν)) :
    ∀ acc : List (κ × ν), (l.map Prod.fst).Nodup →
      (∀ kv ∈ l, kv.1 ∉ acc.map Prod.fst) →
      l.foldl (fun m kv => pyDictInsert m kv.1 kv.2) acc = acc ++ l := by
  induction l with
  | nil => intro acc _ _; simp
  | cons hd tl ih =>
      intro acc hnd hfresh
      have hnd' : hd.1 ∉ tl.map Prod.fst ∧ (tl.map Prod.fst).Nodup := by
        rw [List.map_cons, List.nodup_cons] at hnd
        exact hnd
      obtain ⟨hhd, htl⟩ := hnd'
      have h1 : hd.1 ∉ acc.map Prod.fst := hfresh hd (List.mem_cons_self hd tl)
      have hstep : pyDictInsert acc hd.1 hd.2 = acc ++ [hd] := by
        unfold pyDictInsert
        rw [if_neg h1]
      have hfresh' : ∀ kv ∈ tl, kv.1 ∉ (acc ++ [hd]).map Prod.fst := by
        intro kv hkv hmem2
        rw [List.map_append] at hmem2
        rcases List.mem_append.mp hmem2 with h | h
        · exact hfresh kv (List.mem_cons_of_mem hd hkv) h
        · have he : kv.1 = hd.1 := by simpa using h
          exact hhd (he ▸ List.mem_map_of_mem Prod.fst hkv)
      simp only [List.foldl_cons, hstep]
      rw [ih (acc ++ [hd]) htl hfresh']
      simp

theorem pyDictOf_eq_self {κ ν : Type} [DecidableEq κ] (l : List (κ × ν))
    (h : (l.map Prod.fst).Nodup) : pyDictOf l = l := by
  unfold pyDictOf
  rw [foldl_pyDictInsert_fresh l [] h (by simp)]
  simp

theorem pyDictGet_zip {κ ν : Type} [DecidableEq κ] (keys : List κ) :
    ∀ (vals : List ν) (n : Nat) (hn : n < keys.length) (hn' : n < vals.length),
      keys.Nodup → pyDictGet (keys.zip vals) keys[n] = some vals[n] := by
  induction keys with
  | nil => intro vals n hn; simp at hn
  | cons k ks ih =>
      intro vals n hn hn' hnd
      rcases List.nodup_cons.mp hnd with ⟨hk, hks⟩
      match vals, hn' with
      | v :: vs, hn' =>
          match n with
          | 0 =>
              show pyDictGet ((k, v) :: ks.zip vs) k = some v
              unfold pyDictGet
              rw [List.find?_cons_of_pos _ (by simp)]
              rfl
          | m + 1 =>
              have hm : m < ks.length := by simpa using hn
              have hm' : m < vs.length := by simpa using hn'
              have hne : ks[m] ≠ k := by
                intro he
                exact hk (he ▸ List.getElem_mem hm)
              show pyDictGet ((k, v) :: ks.zip vs) ks[m] = some vs[m]
              unfold pyDictGet
              rw [List.find?_cons_of_neg _ (by simp; exact fun he => hne he.symm)]
              exact ih vs m hm hm' hks

/-! ### `pyListSet` under a valid interpreter behaviour -/

theorem pyListSet_nodup (σ : SetOrder) (hσ : ValidSetOrder σ) (l : List String) :
    (pyListSet σ l).Nodup :=
  (hσ l.dedup).symm.nodup (List.nodup_dedup l)

theorem pyListSet_mem (σ : SetOrder) (hσ : ValidSetOrder σ) (l : List String) (x : String) :
    x ∈ pyListSet σ l ↔ x ∈ l :=
  ((hσ l.dedup).mem_iff).trans List.mem_dedup

/-! ## Structural lemmas about the construction -/

/-- The local variable `intent_list` of `_read_topv2_ontology_vocabs` after
deduplication. -/
def intentList (σ : SetOrder) (onto : Ontology) : List String :=
  pyListSet σ (ontoIntents onto)

/-- The local variable `slot_list` after deduplication. -/
def slotList (σ : SetOrder) (onto : Ontology) : List String :=
  pyListSet σ (ontoSlots onto)

/-- The local variable `ontology_list`. -/
def ontologyList (σ : SetOrder) (onto : Ontology) : List String :=
  pyListSet σ (intentList σ onto ++ slotList σ onto ++ [EOSPAN_TOKEN])

/-- Well-formedness of a construction run: the interpreter's set iteration is a
permutation; the four structural ids of the pretrained vocabulary are in range
and pairwise distinct; the ontology tokens and the pointer tokens are new
(absent from the pretrained subword vocabulary), and no pointer token collides
with an ontology token. -/
structure InitHyp (σ : SetOrder) (t : HFTokenizer) (onto : Ontology) : Prop where
  valid : ValidSetOrder σ
  bos_lt : t.bos_token_id < t.vocab.length
  eos_lt : t.eos_token_id < t.vocab.length
  pad_lt : t.pad_token_id < t.vocab.length
  unk_lt : t.unk_token_id < t.vocab.length
  bos_ne_eos : t.bos_token_id ≠ t.eos_token_id
  bos_ne_pad : t.bos_token_id ≠ t.pad_token_id
  bos_ne_unk : t.bos_token_id ≠ t.unk_token_id
  eos_ne_pad : t.eos_token_id ≠ t.pad_token_id
  eos_ne_unk : t.eos_token_id ≠ t.unk_token_id
  pad_ne_unk : t.pad_token_id ≠ t.unk_token_id
  onto_fresh : ∀ tok ∈ ontoSource onto, tok ∉ t.vocab
  ptr_fresh : ∀ n, n < t.model_max_length → ("@ptr" ++ pyIntStr n) ∉ t.vocab
  ptr_not_onto : ∀ n, n < t.model_max_length → ("@ptr" ++ pyIntStr n) ∉ ontoSource onto

theorem add_tokens_eq_vocab_update (l : List String) :
    ∀ t : HFTokenizer, ∃ v', t.add_tokens l = { t with vocab := v' } := by
  induction l with
  | nil => intro t; exact ⟨t.vocab, rfl⟩
  | cons a rest ih =>
      intro t
      show ∃ v', (if a ∈ t.vocab then t else { t with vocab := t.vocab ++ [a] }).add_tokens rest
          = { t with vocab := v' }
      split
      · exact ih t
      · obtain ⟨v', hv⟩ := ih { t with vocab := t.vocab ++ [a] }
        exact ⟨v', hv⟩

theorem add_tokens_bos (t : HFTokenizer) (l : List String) :
    (t.add_tokens l).bos_token_id = t.bos_token_id := by
  obtain ⟨v', hv⟩ := add_tokens_eq_vocab_update l t
  rw [hv]

theorem add_tokens_eos (t : HFTokenizer) (l : List String) :
    (t.add_tokens l).eos_token_id = t.eos_token_id := by
  obtain ⟨v', hv⟩ := add_tokens_eq_vocab_update l t
  rw [hv]

theorem add_tokens_pad (t : HFTokenizer) (l : List String) :
    (t.add_tokens l).pad_token_id = t.pad_token_id := by
  obtain ⟨v', hv⟩ := add_tokens_eq_vocab_update l t
  rw [hv]

theorem add_tokens_unk (t : HFTokenizer) (l : List String) :
    (t.add_tokens l).unk_token_id = t.unk_token_id := by
  obtain ⟨v', hv⟩ := add_tokens_eq_vocab_update l t
  rw [hv]

theorem add_tokens_mml (t : HFTokenizer) (l : List String) :
    (t.add_tokens l).model_max_length = t.model_max_length := by
  obtain ⟨v', hv⟩ := add_tokens_eq_vocab_update l t
  rw [hv]

/-- Adding a duplicate-free family of genuinely new tokens appends them all. -/
theorem add_tokens_vocab_of_fresh (new : List String) :
    ∀ t : HFTokenizer, new.Nodup → (∀ x ∈ new, x ∉ t.vocab) →
      (t.add_tokens new).vocab = t.vocab ++ new := by
  induction new with
  | nil => intro t _ _; simp [HFTokenizer.add_tokens]
  | cons a rest ih =>
      intro t hnd hfresh
      rcases List.nodup_cons.mp hnd with ⟨ha, hrest⟩
      have ha' : a ∉ t.vocab := hfresh a (List.mem_cons_self a rest)
      show ((if a ∈ t.vocab then t else { t with vocab := t.vocab ++ [a] }).add_tokens rest).vocab
          = t.vocab ++ a :: rest
      rw [if_neg ha', ih { t with vocab := t.vocab ++ [a] } hrest ?fresh]
      · simp
      case fresh =>
        intro x hx hmem
        rcases List.mem_append.mp hmem with h | h
        · exact hfresh x (List.mem_cons_of_mem a hx) h
        · have : x = a := by simpa using h
          exact ha (this ▸ hx)

/-- Slicing `tokenizer.encode(tokens)[1:-1]` is the elementwise token→id conversion. -/
theorem encode_ids (t : HFTokenizer) (toks : List String) :
    ((t.encode toks).drop 1).dropLast = toks.map t.tokToId := by
  show ((t.bos_token_id :: (toks.map t.tokToId ++ [t.eos_token_id])).drop 1).dropLast
      = toks.map t.tokToId
  rw [List.drop_succ_cons, List.drop_zero, List.dropLast_concat]

/-- The id assigned to the `k`-th of a family of new tokens appended to `v`. -/
theorem tokToId_appended (t' : HFTokenizer) (v new : List String) (ht : t'.vocab = v ++ new)
    (k : Nat) (hk : k < new.length) (hnd : new.Nodup) (hfresh : new[k] ∉ v) :
    t'.tokToId new[k] = v.length + k := by
  unfold HFTokenizer.tokToId
  rw [ht, if_pos (List.mem_append_right v (List.getElem_mem hk)),
    List.indexOf_append_of_not_mem hfresh, List.indexOf_getElem hnd k hk]

theorem ontologyList_nodup (σ : SetOrder) (onto : Ontology) (hσ : ValidSetOrder σ) :
    (ontologyList σ onto).Nodup :=
  pyListSet_nodup σ hσ _

theorem ontologyList_subset (σ : SetOrder) (onto : Ontology) (hσ : ValidSetOrder σ) :
    ∀ x ∈ ontologyList σ onto, x ∈ ontoSource onto := by
  intro x hx
  rw [ontologyList, pyListSet_mem _ hσ] at hx
  unfold ontoSource
  simp only [List.mem_append, List.mem_singleton] at hx ⊢
  rcases hx with (h | h) | h
  · exact Or.inl (Or.inl ((pyListSet_mem _ hσ _ _).mp h))
  · exact Or.inl (Or.inr ((pyListSet_mem _ hσ _ _).mp h))
  · exact Or.inr h

theorem read_tokenizer_eq (σ : SetOrder) (t : HFTokenizer) (onto : Ontology) :
    (read_topv2_ontology_vocabs σ t onto).tokenizer = t.add_tokens (ontologyList σ onto) := rfl

theorem read_ontology_id_list_eq (σ : SetOrder) (t : HFTokenizer) (onto : Ontology) :
    (read_topv2_ontology_vocabs σ t onto).ontology_id_list
      = (ontologyList σ onto).map (t.add_tokens (ontologyList σ onto)).tokToId :=
  encode_ids _ _

theorem st_vocab {σ : SetOrder} {t : HFTokenizer} {onto : Ontology} (h : InitHyp σ t onto) :
    (read_topv2_ontology_vocabs σ t onto).tokenizer.vocab
      = t.vocab ++ ontologyList σ onto := by
  rw [read_tokenizer_eq]
  exact add_tokens_vocab_of_fresh _ t (ontologyList_nodup σ onto h.valid)
    (fun x hx => h.onto_fresh x (ontologyList_subset σ onto h.valid x hx))

theorem st_ontology_id_list {σ : SetOrder} {t : HFTokenizer} {onto : Ontology}
    (h : InitHyp σ t onto) :
    (read_topv2_ontology_vocabs σ t onto).ontology_id_list
      = (List.range (ontologyList σ onto).length).map (fun k => t.vocab.length + k) := by
  rw [read_ontology_id_list_eq]
  apply List.ext_getElem (by simp)
  intro n h1 h2
  simp only [List.getElem_map, List.getElem_range]
  have hn : n < (ontologyList σ onto).length := by simpa using h1
  apply tokToId_appended _ t.vocab _ (st_vocab h ▸ read_tokenizer_eq σ t onto ▸ rfl) n hn
    (ontologyList_nodup σ onto h.valid)
  exact h.onto_fresh _ (ontologyList_subset σ onto h.valid _ (List.getElem_mem hn))

/-- The `PointerTokenizer` object built by a successful TOPv2 initialization. -/
def builtPT (σ : SetOrder) (t : HFTokenizer) (onto : Ontology) : PointerTokenizerState :=
  add_special_pointer_vocabs (read_topv2_ontology_vocabs σ t onto)

theorem PointerTokenizer_init_eq (σ : SetOrder) (t : HFTokenizer) (onto : Ontology) :
    PointerTokenizer.init σ t DatasetPaths.TOPv2 onto
      = (Except.ok (builtPT σ t onto), (builtPT σ t onto).tokenizer) := rfl

theorem st_mml (σ : SetOrder) (t : HFTokenizer) (onto : Ontology) :
    (read_topv2_ontology_vocabs σ t onto).tokenizer.model_max_length = t.model_max_length := by
  rw [read_tokenizer_eq]; exact add_tokens_mml t _

theorem pointer_set_fresh {σ : SetOrder} {t : HFTokenizer} {onto : Ontology}
    (h : InitHyp σ t onto) :
    ∀ x ∈ pointer_set t.model_max_length,
      x ∉ (read_topv2_ontology_vocabs σ t onto).tokenizer.vocab := by
  intro x hx
  rw [st_vocab h]
  obtain ⟨n, hn, rfl⟩ := by simpa [pointer_set] using hx
  intro hmem
  rcases List.mem_append.mp hmem with hcase | hcase
  · exact h.ptr_fresh n hn hcase
  · exact h.ptr_not_onto n hn (ontologyList_subset σ onto h.valid _ hcase)

theorem builtPT_tokenizer_eq (σ : SetOrder) (t : HFTokenizer) (onto : Ontology) :
    (builtPT σ t onto).tokenizer
      = (read_topv2_ontology_vocabs σ t onto).tokenizer.add_tokens
          (pointer_set (read_topv2_ontology_vocabs σ t onto).tokenizer.model_max_length) := rfl

theorem builtPT_tokenizer_vocab {σ : SetOrder} {t : HFTokenizer} {onto : Ontology}
    (h : InitHyp σ t onto) :
    (builtPT σ t onto).tokenizer.vocab
      = t.vocab ++ ontologyList σ onto ++ pointer_set t.model_max_length := by
  rw [builtPT_tokenizer_eq, st_mml,
    add_tokens_vocab_of_fresh _ _ (pointer_set_nodup _) (pointer_set_fresh h), st_vocab h]

theorem builtPT_size {σ : SetOrder} {t : HFTokenizer} {onto : Ontology} (h : InitHyp σ t onto) :
    (builtPT σ t onto).tokenizer.size
      = t.vocab.length + (ontologyList σ onto).length + t.model_max_length := by
  rw [HFTokenizer.size, builtPT_tokenizer_vocab h]
  simp [pointer_set_length, Nat.add_assoc]

theorem builtPT_eos (σ : SetOrder) (t : HFTokenizer) (onto : Ontology) :
    (builtPT σ t onto).tokenizer.eos_token_id = t.eos_token_id := by
  rw [builtPT_tokenizer_eq, add_tokens_eos, read_tokenizer_eq, add_tokens_eos]

theorem builtPT_bos (σ : SetOrder) (t : HFTokenizer) (onto : Ontology) :
    (builtPT σ t onto).tokenizer.bos_token_id = t.bos_token_id := by
  rw [builtPT_tokenizer_eq, add_tokens_bos, read_tokenizer_eq, add_tokens_bos]

theorem builtPT_pad (σ : SetOrder) (t : HFTokenizer) (onto : Ontology) :
    (builtPT σ t onto).tokenizer.pad_token_id = t.pad_token_id := by
  rw [builtPT_tokenizer_eq, add_tokens_pad, read_tokenizer_eq, add_tokens_pad]

theorem builtPT_unk (σ : SetOrder) (t : HFTokenizer) (onto : Ontology) :
    (builtPT σ t onto).tokenizer.unk_token_id = t.unk_token_id := by
  rw [builtPT_tokenizer_eq, add_tokens_unk, read_tokenizer_eq, add_tokens_unk]

/-- The ids the final tokenizer assigns to the pointer tokens. -/
theorem builtPT_pointer_ids {σ : SetOrder} {t : HFTokenizer} {onto : Ontology}
    (h : InitHyp σ t onto) :
    (pointer_set t.model_max_length).map (builtPT σ t onto).tokenizer.tokToId
      = (List.range t.model_max_length).map
          (fun n => t.vocab.length + (ontologyList σ onto).length + n) := by
  apply List.ext_getElem (by simp [pointer_set_length])
  intro n h1 h2
  simp only [List.getElem_map, List.getElem_range]
  have hn : n < (pointer_set t.model_max_length).length := by simpa using h1
  have hfr : (pointer_set t.model_max_length)[n]
      ∉ t.vocab ++ ontologyList σ onto := by
    have := pointer_set_fresh h _ (List.getElem_mem hn)
    rw [st_vocab h] at this
    exact this
  have := tokToId_appended (builtPT σ t onto).tokenizer (t.vocab ++ ontologyList σ onto)
    (pointer_set t.model_max_length)
    (by rw [builtPT_tokenizer_vocab h, List.append_assoc]) n hn (pointer_set_nodup _) hfr
  rw [this, List.length_append]

/-- The shape of the inverse table, as explicit id arithmetic. -/
def remapList (B K M e b p u : Nat) : List Nat :=
  (List.range M).map (fun n => B + K + n) ++ (List.range K).map (fun k => B + k)
    ++ [e, b, p, u]

theorem remapList_length (B K M e b p u : Nat) :
    (remapList B K M e b p u).length = M + K + 4 := by
  simp [remapList]
  omega

/-- Table `pointers_to_vocabs` is exactly pointer ids, then ontology ids, then the
eos/bos/pad/unk ids of the pretrained tokenizer. -/
theorem builtPT_pointers_to_vocabs {σ : SetOrder} {t : HFTokenizer} {onto : Ontology}
    (h : InitHyp σ t onto) :
    (builtPT σ t onto).pointers_to_vocabs
      = remapList t.vocab.length (ontologyList σ onto).length t.model_max_length
          t.eos_token_id t.bos_token_id t.pad_token_id t.unk_token_id := by
  have hrfl : (builtPT σ t onto).pointers_to_vocabs
      = (((builtPT σ t onto).tokenizer.encode
            (pointer_set (read_topv2_ontology_vocabs σ t onto).tokenizer.model_max_length)).drop
              1).dropLast
        ++ (read_topv2_ontology_vocabs σ t onto).ontology_id_list
        ++ [(builtPT σ t onto).tokenizer.eos_token_id,
            (builtPT σ t onto).tokenizer.bos_token_id,
            (builtPT σ t onto).tokenizer.pad_token_id,
            (builtPT σ t onto).tokenizer.unk_token_id] := rfl
  rw [hrfl, encode_ids, st_mml, builtPT_pointer_ids h, st_ontology_id_list h,
    builtPT_eos, builtPT_bos, builtPT_pad, builtPT_unk]
  rfl

theorem builtPT_vocabs_to_pointers {σ : SetOrder} {t : HFTokenizer} {onto : Ontology}
    (h : InitHyp σ t onto) :
    (builtPT σ t onto).vocabs_to_pointers
      = scatterArange (builtPT σ t onto).pointers_to_vocabs
          (List.replicate
            (t.vocab.length + (ontologyList σ onto).length + t.model_max_length) (-1)) := by
  have hrfl : (builtPT σ t onto).vocabs_to_pointers
      = scatterArange (builtPT σ t onto).pointers_to_vocabs
          (List.replicate (builtPT σ t onto).tokenizer.size (-1)) := rfl
  rw [hrfl, builtPT_size h]

theorem remapList_nodup (B K M e b p u : Nat) (heB : e < B) (hbB : b < B) (hpB : p < B)
    (huB : u < B) (heb : e ≠ b) (hep : e ≠ p) (heu : e ≠ u) (hbp : b ≠ p) (hbu : b ≠ u)
    (hpu : p ≠ u) : (remapList B K M e b p u).Nodup := by
  have n1 : ((List.range M).map (fun n => B + K + n)).Nodup :=
    (List.nodup_range M).map (fun a b hab => by omega)
  have n2 : ((List.range K).map (fun k => B + k)).Nodup :=
    (List.nodup_range K).map (fun a b hab => by omega)
  have n3 : ([e, b, p, u] : List Nat).Nodup := by
    refine List.nodup_cons.mpr ⟨?_, List.nodup_cons.mpr ⟨?_,
      List.nodup_cons.mpr ⟨?_, List.nodup_singleton u⟩⟩⟩
    · simp only [List.mem_cons, List.mem_singleton, not_or]
      exact ⟨heb, hep, heu, List.not_mem_nil e⟩
    · simp only [List.mem_cons, List.mem_singleton, not_or]
      exact ⟨hbp, hbu, List.not_mem_nil b⟩
    · simp only [List.mem_singleton]
      exact hpu
  have d23 : ((List.range K).map (fun k => B + k)).Disjoint ([e, b, p, u] : List Nat) := by
    intro x hx1 hx2
    obtain ⟨k, hk, rfl⟩ := by simpa using hx1
    rcases (by simpa using hx2 : B + k = e ∨ B + k = b ∨ B + k = p ∨ B + k = u) with
      h | h | h | h <;> omega
  have d123 : ((List.range M).map (fun n => B + K + n)).Disjoint
      ((List.range K).map (fun k => B + k) ++ ([e, b, p, u] : List Nat)) := by
    intro x hx1 hx2
    obtain ⟨n, hn, rfl⟩ := by simpa using hx1
    rcases List.mem_append.mp hx2 with hc | hc
    · obtain ⟨k, hk, he⟩ := by simpa using hc
      omega
    · rcases (by simpa using hc : B + K + n = e ∨ B + K + n = b ∨ B + K + n = p
          ∨ B + K + n = u) with h | h | h | h <;> omega
  unfold remapList
  rw [List.append_assoc, List.nodup_append]
  exact ⟨n1, List.nodup_append.mpr ⟨n2, n3, d23⟩, d123⟩

theorem remapList_lt (B K M e b p u : Nat) (heB : e < B) (hbB : b < B) (hpB : p < B)
    (huB : u < B) : ∀ x ∈ remapList B K M e b p u, x < B + K + M := by
  intro x hx
  unfold remapList at hx
  rw [List.append_assoc] at hx
  rcases List.mem_append.mp hx with hc | hc
  · obtain ⟨n, hn, rfl⟩ := by simpa using hc
    omega
  · rcases List.mem_append.mp hc with hc | hc
    · obtain ⟨k, hk, rfl⟩ := by simpa using hc
      omega
    · rcases (by simpa using hc : x = e ∨ x = b ∨ x = p ∨ x = u) with h | h | h | h <;> omega

theorem getElem?_last_append {α : Type} (l : List α) (x : α) :
    (l ++ [x])[(l ++ [x]).length - 1]? = some x := by
  have h : (l ++ [x]).length - 1 = l.length := by simp
  rw [h, List.getElem?_concat_length]

/-- The last entry of the inverse table is the unknown-token id. -/
theorem remapList_last (B K M e b p u : Nat) :
    (remapList B K M e b p u)[(remapList B K M e b p u).length - 1]? = some u := by
  have hsplit : remapList B K M e b p u
      = ((List.range M).map (fun n => B + K + n) ++ (List.range K).map (fun k => B + k)
          ++ [e, b, p]) ++ [u] := by
    unfold remapList
    rw [List.append_assoc ((List.range M).map (fun n => B + K + n)
        ++ (List.range K).map (fun k => B + k)) [e, b, p] [u]]
    rfl
  rw [hsplit, getElem?_last_append]

/-! ### torch indexing on the built tables -/

theorem torchIndex_natCast {α : Type} (arr : List α) (x : Nat) :
    torchIndex arr (x : Int) = arr[x]? := by
  simp only [torchIndex]
  rw [if_neg (by omega : ¬((x : Int) < 0)), if_pos (by omega : (0 : Int) ≤ (x : Int)),
    Int.toNat_natCast]

theorem torchIndex_neg_one {α : Type} (arr : List α) (h : 0 < arr.length) :
    torchIndex arr (-1) = arr[arr.length - 1]? := by
  simp only [torchIndex]
  rw [if_pos (by omega : (-1 : Int) < 0),
    if_pos (by omega : (0 : Int) ≤ (arr.length : Int) + (-1))]
  congr 1
  omega

theorem scatter_length (L : List Nat) (N : Nat) :
    (scatterArange L (List.replicate N (-1))).length = N := by
  unfold scatterArange
  rw [scatterFrom_length]
  simp

theorem scatter_lookup_getElem (L : List Nat) (N j : Nat) (hnd : L.Nodup)
    (hN : ∀ x ∈ L, x < N) (hj : j < L.length) :
    (scatterArange L (List.replicate N (-1)))[L[j]]? = some ((j : Nat) : Int) := by
  unfold scatterArange
  have hb : L[j] < (List.replicate N (-1 : Int)).length := by
    simpa using hN _ (List.getElem_mem hj)
  have := scatterFrom_getElem?_mem L 0 (List.replicate N (-1)) j hj hnd hb
  simpa using this

theorem scatter_lookup_not_mem (L : List Nat) (N x : Nat) (hx : x ∉ L) (hxN : x < N) :
    (scatterArange L (List.replicate N (-1)))[x]? = some (-1) := by
  unfold scatterArange
  rw [scatterFrom_getElem?_not_mem L 0 _ x hx, List.getElem?_replicate, if_pos hxN]

/-! ### The forward and inverse transforms of the built tokenizer -/

theorem builtPT_p2v_nodup {σ : SetOrder} {t : HFTokenizer} {onto : Ontology}
    (h : InitHyp σ t onto) : (builtPT σ t onto).pointers_to_vocabs.Nodup := by
  rw [builtPT_pointers_to_vocabs h]
  exact remapList_nodup _ _ _ _ _ _ _ h.eos_lt h.bos_lt h.pad_lt h.unk_lt
    (Ne.symm h.bos_ne_eos) h.eos_ne_pad h.eos_ne_unk h.bos_ne_pad h.bos_ne_unk h.pad_ne_unk

theorem builtPT_p2v_lt {σ : SetOrder} {t : HFTokenizer} {onto : Ontology}
    (h : InitHyp σ t onto) : ∀ x ∈ (builtPT σ t onto).pointers_to_vocabs,
      x < t.vocab.length + (ontologyList σ onto).length + t.model_max_length := by
  rw [builtPT_pointers_to_vocabs h]
  exact remapList_lt _ _ _ _ _ _ _ h.eos_lt h.bos_lt h.pad_lt h.unk_lt

theorem builtPT_p2v_length {σ : SetOrder} {t : HFTokenizer} {onto : Ontology}
    (h : InitHyp σ t onto) : (builtPT σ t onto).pointers_to_vocabs.length
      = t.model_max_length + (ontologyList σ onto).length + 4 := by
  rw [builtPT_pointers_to_vocabs h, remapList_length]

/-- Map `transform` sends the id stored at compact position `j` back to `j`. -/
theorem builtPT_transform_mem {σ : SetOrder} {t : HFTokenizer} {onto : Ontology}
    (h : InitHyp σ t onto) (j : Nat)
    (hj : j < (builtPT σ t onto).pointers_to_vocabs.length) :
    (builtPT σ t onto).transform ((builtPT σ t onto).pointers_to_vocabs[j] : Int)
      = some ((j : Nat) : Int) := by
  simp only [PointerTokenizerState.transform]
  rw [builtPT_vocabs_to_pointers h, torchIndex_natCast,
    scatter_lookup_getElem _ _ j (builtPT_p2v_nodup h) (builtPT_p2v_lt h) hj]

/-- Map `transform` sends an in-range non-member id to the sentinel `-1`. -/
theorem builtPT_transform_not_mem {σ : SetOrder} {t : HFTokenizer} {onto : Ontology}
    (h : InitHyp σ t onto) (x : Nat) (hx : x ∉ (builtPT σ t onto).pointers_to_vocabs)
    (hxN : x < t.vocab.length + (ontologyList σ onto).length + t.model_max_length) :
    (builtPT σ t onto).transform (x : Int) = some (-1) := by
  simp only [PointerTokenizerState.transform]
  rw [builtPT_vocabs_to_pointers h, torchIndex_natCast, scatter_lookup_not_mem _ _ x hx hxN]

/-- Map `transform` raises `IndexError` on an id at or beyond the vocabulary size. -/
theorem builtPT_transform_out_of_range {σ : SetOrder} {t : HFTokenizer} {onto : Ontology}
    (h : InitHyp σ t onto) (x : Nat)
    (hxN : t.vocab.length + (ontologyList σ onto).length + t.model_max_length ≤ x) :
    (builtPT σ t onto).transform (x : Int) = none := by
  simp only [PointerTokenizerState.transform]
  rw [builtPT_vocabs_to_pointers h, torchIndex_natCast]
  exact List.getElem?_eq_none (by rw [scatter_length]; exact hxN)

/-- Map `reverse_transform` reads the inverse table at a non-negative index. -/
theorem builtPT_reverse_lt (σ : SetOrder) (t : HFTokenizer) (onto : Ontology) (y : Nat)
    (hy : y < (builtPT σ t onto).pointers_to_vocabs.length) :
    (builtPT σ t onto).reverse_transform (y : Int)
      = some ((builtPT σ t onto).pointers_to_vocabs[y]) := by
  simp only [PointerTokenizerState.reverse_transform]
  rw [torchIndex_natCast, List.getElem?_eq_getElem hy]

/-- Map `reverse_transform` at the sentinel `-1` yields the unknown-token id. -/
theorem builtPT_reverse_neg_one {σ : SetOrder} {t : HFTokenizer} {onto : Ontology}
    (h : InitHyp σ t onto) :
    (builtPT σ t onto).reverse_transform (-1) = some t.unk_token_id := by
  simp only [PointerTokenizerState.reverse_transform]
  rw [torchIndex_neg_one _ (by rw [builtPT_p2v_length h]; omega),
    builtPT_pointers_to_vocabs h, remapList_last]

/-- The entry of the inverse table at a pointer position. -/
theorem remapList_getElem_ptr (B K M e b p u n : Nat) (hn : n < M) :
    (remapList B K M e b p u)[n]? = some (B + K + n) := by
  unfold remapList
  have h1 : n < ((List.range M).map (fun n => B + K + n)).length := by simpa using hn
  rw [List.append_assoc, List.getElem?_append, if_pos h1, List.getElem?_map,
    List.getElem?_range hn]
  rfl

/-- The registered pointer-to-id dict is the zip of tokens with their ids. -/
theorem builtPT_pointer_to_id_map {σ : SetOrder} {t : HFTokenizer} {onto : Ontology}
    (h : InitHyp σ t onto) :
    (builtPT σ t onto).pointer_to_id_map
      = (pointer_set t.model_max_length).zip
          ((List.range t.model_max_length).map
            (fun n => t.vocab.length + (ontologyList σ onto).length + n)) := by
  have hrfl : (builtPT σ t onto).pointer_to_id_map
      = pyDictOf ((pointer_set (read_topv2_ontology_vocabs σ t onto).tokenizer.model_max_length).zip
          ((((builtPT σ t onto).tokenizer.encode
              (pointer_set (read_topv2_ontology_vocabs σ t onto).tokenizer.model_max_length)).drop
                1).dropLast)) := rfl
  rw [hrfl, encode_ids, st_mml, builtPT_pointer_ids h]
  apply pyDictOf_eq_self
  rw [List.map_fst_zip _ _ (by simp [pointer_set_length])]
  exact pointer_set_nodup _

/-- Lookup `map_pointer_to_id` of the `n`-th pointer token is its registered id. -/
theorem builtPT_map_pointer_to_id {σ : SetOrder} {t : HFTokenizer} {onto : Ontology}
    (h : InitHyp σ t onto) (n : Nat) (hn : n < t.model_max_length) :
    (builtPT σ t onto).map_pointer_to_id ("@ptr" ++ pyIntStr n)
      = some (t.vocab.length + (ontologyList σ onto).length + n) := by
  simp only [PointerTokenizerState.map_pointer_to_id]
  rw [builtPT_pointer_to_id_map h]
  have hn1 : n < (pointer_set t.model_max_length).length := by
    rw [pointer_set_length]; exact hn
  have hn2 : n < ((List.range t.model_max_length).map
      (fun n => t.vocab.length + (ontologyList σ onto).length + n)).length := by
    simpa using hn
  have := pyDictGet_zip (pointer_set t.model_max_length)
    ((List.range t.model_max_length).map
      (fun n => t.vocab.length + (ontologyList σ onto).length + n))
    n hn1 hn2 (pointer_set_nodup _)
  rw [pointer_set_getElem t.model_max_length n hn1] at this
  rw [this, List.getElem_map, List.getElem_range]

/-- A successful TOPv2 `PointerTokenizer` initialization returns `builtPT`. -/
theorem init_ok_eq {σ : SetOrder} {t : HFTokenizer} {onto : Ontology}
    {pt : PointerTokenizerState}
    (hpt : (PointerTokenizer.init σ t DatasetPaths.TOPv2 onto).1 = Except.ok pt) :
    pt = builtPT σ t onto := by
  have h2 : Except.ok (ε := String) (builtPT σ t onto) = Except.ok pt := hpt
  exact (Except.ok.inj h2).symm

/-! ## Concrete fixtures used by the witnesses -/

/-- A set-iteration behaviour: hash order happens to match insertion order. -/
def idSetOrder : SetOrder := fun l => l

/-- Another possible set-iteration behaviour: hash order reverses. -/
def revSetOrder : SetOrder := fun l => l.reverse

/-- A small pretrained vocabulary: four structural tokens plus one content
token ("hello", id 4). -/
def tW : HFTokenizer :=
  { vocab := ["<s>", "<pad>", "</s>", "<unk>", "hello"]
    bos_token_id := 0
    eos_token_id := 2
    pad_token_id := 1
    unk_token_id := 3
    model_max_length := 2 }

/-- A one-domain ontology with one intent and one slot. -/
def ontoW : Ontology := ⟨[("weather", ["IN:GET"], ["SL:LOC"])]⟩

/-- The pointer tokenizer built over the fixture. -/
def ptW : PointerTokenizerState := builtPT idSetOrder tW ontoW

theorem initHypW : InitHyp idSetOrder tW ontoW := by
  refine ⟨fun l => List.Perm.refl _, ?_, ?_, ?_, ?_, ?_, ?_, ?_, ?_, ?_, ?_, ?_, ?_, ?_⟩
    <;> decide

/-! ## The claims -/

/-- C1: bidirectional round-trip of the remap tables.  For every
full-vocabulary id `x` that is a member of the restricted output set
(`pointers_to_vocabs`), `reverse_transform (transform x) = x`; and for every
compact id `y` in `[0, restrictedSize)`, `transform (reverse_transform y) = y`. -/
theorem C1_remap_roundtrip (σ : SetOrder) (t : HFTokenizer) (onto : Ontology)
    (h : InitHyp σ t onto) (pt : PointerTokenizerState)
    (hpt : (PointerTokenizer.init σ t DatasetPaths.TOPv2 onto).1 = Except.ok pt) :
    (∀ x : Nat, x ∈ pt.pointers_to_vocabs →
        (pt.transform (x : Int)).bind pt.reverse_transform = some x) ∧
    (∀ y : Nat, y < pt.pointers_to_vocabs.length →
        (pt.reverse_transform (y : Int)).bind (fun x => pt.transform (x : Int))
          = some ((y : Nat) : Int)) := by
  have hpt' := init_ok_eq hpt
  subst hpt'
  constructor
  · intro x hx
    obtain ⟨j, hj, rfl⟩ := List.getElem_of_mem hx
    rw [builtPT_transform_mem h j hj, Option.some_bind, builtPT_reverse_lt σ t onto j hj]
  · intro y hy
    rw [builtPT_reverse_lt σ t onto y hy, Option.some_bind, builtPT_transform_mem h y hy]

theorem C1_remap_roundtrip_witness :
    ((ptW.transform ((8 : Nat) : Int)).bind ptW.reverse_transform = some 8) ∧
    ((ptW.reverse_transform ((0 : Nat) : Int)).bind (fun x => ptW.transform (x : Int))
      = some ((0 : Nat) : Int)) := by
  have hmain := C1_remap_roundtrip idSetOrder tW ontoW initHypW ptW rfl
  exact ⟨hmain.1 8 (by decide), hmain.2 0 (by decide)⟩

/-- C2: the claim says `output_vocab_size` returns
`maxSeqLen + ontologyVocabSize + 4`; in the code the accessor always raises
`AttributeError`, because it reads `self.ontology_list`, an attribute that
`_read_topv2_ontology_vocabs` never assigns (only a local variable of that
name exists).  Both accessors evaluate to `none` (the raised exception) on
every successfully constructed tokenizer. -/
theorem C2_output_vocab_size_raises (σ : SetOrder) (t : HFTokenizer) (onto : Ontology)
    (pt : PointerTokenizerState)
    (hpt : (PointerTokenizer.init σ t DatasetPaths.TOPv2 onto).1 = Except.ok pt) :
    pt.output_vocab_size = none ∧ pt.ontology_vocab_size = none := by
  have hpt' := init_ok_eq hpt
  subst hpt'
  exact ⟨rfl, rfl⟩

theorem C2_output_vocab_size_raises_witness :
    ptW.output_vocab_size = none :=
  (C2_output_vocab_size_raises idSetOrder tW ontoW ptW rfl).1

/-- C4 as stated is false at a concrete input: the full-vocabulary id 4 (the
content token "hello") is not a member of the restricted set, yet `transform`
does not fail — it silently returns the sentinel compact id `-1`. -/
theorem C4_transform_counterexample :
    (4 : Nat) ∉ ptW.pointers_to_vocabs ∧
    ptW.transform ((4 : Nat) : Int) = some (-1) ∧
    ptW.transform ((4 : Nat) : Int) ≠ none := by
  refine ⟨by decide, by decide, by decide⟩

/-- C4 amended: when the forward transform receives an id that is not a member
of the restricted set, no assertion is raised; for an id inside the
full-vocabulary range it silently yields the sentinel compact id `-1`, and only
an id at or beyond the vocabulary size fails (`IndexError`). -/
theorem C4_amended_transform_sentinel (σ : SetOrder) (t : HFTokenizer) (onto : Ontology)
    (h : InitHyp σ t onto) (pt : PointerTokenizerState)
    (hpt : (PointerTokenizer.init σ t DatasetPaths.TOPv2 onto).1 = Except.ok pt) :
    (∀ x : Nat, x < pt.vocab_size → x ∉ pt.pointers_to_vocabs →
        pt.transform (x : Int) = some (-1)) ∧
    (∀ x : Nat, pt.vocab_size ≤ x → pt.transform (x : Int) = none) := by
  have hpt' := init_ok_eq hpt
  subst hpt'
  have hvs : (builtPT σ t onto).vocab_size
      = t.vocab.length + (ontologyList σ onto).length + t.model_max_length :=
    builtPT_size h
  constructor
  · intro x hx1 hx2
    exact builtPT_transform_not_mem h x hx2 (hvs ▸ hx1)
  · intro x hx1
    exact builtPT_transform_out_of_range h x (hvs ▸ hx1)

theorem C4_amended_transform_sentinel_witness :
    ptW.transform ((4 : Nat) : Int) = some (-1) ∧
    ptW.transform ((10 : Nat) : Int) = none := by
  have hmain := C4_amended_transform_sentinel idSetOrder tW ontoW initHypW ptW rfl
  exact ⟨hmain.1 4 (by decide) (by decide), hmain.2 10 (by decide)⟩

/-- C9: for any full-vocabulary id `x` that is in range but not a member of the
restricted set, `transform` maps `x` to the sentinel `-1`, and
`reverse_transform` at `-1` selects — by negative indexing — the last entry of
the inverse table, the unknown token's full-vocabulary id; hence the
forward-then-inverse composition silently rewrites a non-member to the unknown
token instead of signalling an error. -/
theorem C9_nonmember_becomes_unk (σ : SetOrder) (t : HFTokenizer) (onto : Ontology)
    (h : InitHyp σ t onto) (pt : PointerTokenizerState)
    (hpt : (PointerTokenizer.init σ t DatasetPaths.TOPv2 onto).1 = Except.ok pt) :
    ∀ x : Nat, x < pt.vocab_size → x ∉ pt.pointers_to_vocabs →
      pt.transform (x : Int) = some (-1) ∧
      pt.reverse_transform (-1) = some t.unk_token_id ∧
      (pt.transform (x : Int)).bind pt.reverse_transform = some t.unk_token_id := by
  have hpt' := init_ok_eq hpt
  subst hpt'
  have hvs : (builtPT σ t onto).vocab_size
      = t.vocab.length + (ontologyList σ onto).length + t.model_max_length :=
    builtPT_size h
  intro x hx1 hx2
  have ht := builtPT_transform_not_mem h x hx2 (hvs ▸ hx1)
  exact ⟨ht, builtPT_reverse_neg_one h,
    by rw [ht, Option.some_bind, builtPT_reverse_neg_one h]⟩

theorem C9_nonmember_becomes_unk_witness :
    ptW.transform ((4 : Nat) : Int) = some (-1) ∧
    ptW.reverse_transform (-1) = some tW.unk_token_id ∧
    (ptW.transform ((4 : Nat) : Int)).bind ptW.reverse_transform = some tW.unk_token_id :=
  C9_nonmember_becomes_unk idSetOrder tW ontoW initHypW ptW rfl 4 (by decide) (by decide)

/-- A one-domain ontology with two intents, enough to expose order dependence. -/
def ontoTwoIntents : Ontology :=
  ⟨[("weather", ["IN:GET_WEATHER", "IN:GET_SUNRISE"], ["SL:LOC"])]⟩

/-- C3: the claim requires that two runs of ontology loading over the same
source yield the intent tokens in the same order.  In the code the order is the
iteration order of a Python `set` of strings, which varies with the
interpreter's hash randomization: two valid interpreter behaviours (both
producing exactly the deduplicated elements) yield different intent-list
orders for the same ontology source, so registration order and downstream ids
are not reproducible across runs. -/
theorem C3_intent_order_not_deterministic :
    ValidSetOrder idSetOrder ∧ ValidSetOrder revSetOrder ∧
    (read_topv2_ontology_vocabs idSetOrder tW ontoTwoIntents).intent_list
      ≠ (read_topv2_ontology_vocabs revSetOrder tW ontoTwoIntents).intent_list ∧
    ((read_topv2_ontology_vocabs idSetOrder tW ontoTwoIntents).intent_list).Perm
      ((read_topv2_ontology_vocabs revSetOrder tW ontoTwoIntents).intent_list) :=
  ⟨fun l => List.Perm.refl _, fun l => List.reverse_perm l, by decide, by decide⟩

/-- C5: the inverse map is exactly the ordered concatenation of the pointer
token ids, the ontology token ids, and the ids `[eos, bos, pad, unk]`; hence
for `n < maxSeqLen`, compact id `n` corresponds to the pointer token `@ptr n`
for input position `n`. -/
theorem C5_inverse_map_layout (σ : SetOrder) (t : HFTokenizer) (onto : Ontology)
    (h : InitHyp σ t onto) (pt : PointerTokenizerState)
    (hpt : (PointerTokenizer.init σ t DatasetPaths.TOPv2 onto).1 = Except.ok pt) :
    pt.pointers_to_vocabs
      = (pointer_set t.model_max_length).map pt.tokenizer.tokToId
        ++ pt.ontology_id_list
        ++ [t.eos_token_id, t.bos_token_id, t.pad_token_id, t.unk_token_id] ∧
    (∀ n : Nat, n < t.model_max_length →
        pt.reverse_transform (n : Int) = pt.map_pointer_to_id ("@ptr" ++ pyIntStr n)) := by
  have hpt' := init_ok_eq hpt
  subst hpt'
  constructor
  · rw [builtPT_pointers_to_vocabs h, builtPT_pointer_ids h]
    have hol : (builtPT σ t onto).ontology_id_list
        = (read_topv2_ontology_vocabs σ t onto).ontology_id_list := rfl
    rw [hol, st_ontology_id_list h]
    rfl
  · intro n hn
    have h1 : (builtPT σ t onto).reverse_transform (n : Int)
        = some (t.vocab.length + (ontologyList σ onto).length + n) := by
      simp only [PointerTokenizerState.reverse_transform]
      rw [torchIndex_natCast, builtPT_pointers_to_vocabs h,
        remapList_getElem_ptr _ _ _ _ _ _ _ _ hn]
    rw [h1, builtPT_map_pointer_to_id h n hn]

theorem C5_inverse_map_layout_witness :
    ptW.reverse_transform ((0 : Nat) : Int) = ptW.map_pointer_to_id ("@ptr" ++ pyIntStr 0) :=
  (C5_inverse_map_layout idSetOrder tW ontoW initHypW ptW rfl).2 0 (by decide)

/-- C6: constructing either tokenizer class with an unsupported dataset kind
raises during initialization (`ValueError`, the spec's `ConfigurationError`),
before any vocabulary mutation: the vocabulary state at the moment the
exception propagates is the untouched pretrained one. -/
theorem C6_unsupported_dataset_raises (σ : SetOrder) (t : HFTokenizer) (name : String)
    (onto : Ontology) :
    (∃ e, (Tokenizer.init σ t (DatasetPaths.unsupported name) onto).1 = Except.error e) ∧
    (Tokenizer.init σ t (DatasetPaths.unsupported name) onto).2.size = t.size ∧
    (∃ e, (PointerTokenizer.init σ t (DatasetPaths.unsupported name) onto).1
        = Except.error e) ∧
    (PointerTokenizer.init σ t (DatasetPaths.unsupported name) onto).2.size = t.size :=
  ⟨⟨_, rfl⟩, rfl, ⟨_, rfl⟩, rfl⟩

/-- C7: pointer generation yields exactly `maxSeqLen` distinct pointer tokens,
the `n`-th being `@ptr n` (strictly increasing positional index), and
registration aligns the `n`-th generated token with the `n`-th assigned id —
consecutive ids starting right after the ontology block, hence strictly
increasing in `n`. -/
theorem C7_pointer_generation (σ : SetOrder) (t : HFTokenizer) (onto : Ontology)
    (h : InitHyp σ t onto) (pt : PointerTokenizerState)
    (hpt : (PointerTokenizer.init σ t DatasetPaths.TOPv2 onto).1 = Except.ok pt) :
    (pointer_set t.model_max_length).length = t.model_max_length ∧
    (pointer_set t.model_max_length).Nodup ∧
    (∀ n : Nat, n < t.model_max_length →
        (pointer_set t.model_max_length)[n]? = some ("@ptr" ++ pyIntStr n)) ∧
    (∀ n : Nat, n < t.model_max_length →
        pt.map_pointer_to_id ("@ptr" ++ pyIntStr n)
          = some (t.vocab.length + (ontologyList σ onto).length + n)) := by
  have hpt' := init_ok_eq hpt
  subst hpt'
  refine ⟨pointer_set_length _, pointer_set_nodup _, ?_,
    fun n hn => builtPT_map_pointer_to_id h n hn⟩
  intro n hn
  have h1 : n < (pointer_set t.model_max_length).length := by
    rw [pointer_set_length]; exact hn
  rw [List.getElem?_eq_getElem h1, pointer_set_getElem _ _ h1]

theorem C7_pointer_generation_witness :
    ptW.map_pointer_to_id ("@ptr" ++ pyIntStr 1)
      = some (tW.vocab.length + (ontologyList idSetOrder ontoW).length + 1) :=
  (C7_pointer_generation idSetOrder tW ontoW initHypW ptW rfl).2.2.2 1 (by decide)

/-- C8: `batch_encode_vocabs_to_pointers` applies the forward transform only to
the `input_ids` field of the encoded batch; every other batch field (attention
mask, padding indicators, ...) passes through unchanged from the underlying
subword encoder's output. -/
theorem C8_batch_encode_frame (pt : PointerTokenizerState)
    (encodePlus : List String → List (String × List Int)) (sequences : List String)
    (out : List (String × List Int))
    (hout : pt.batch_encode_vocabs_to_pointers encodePlus sequences = some out) :
    (∀ key : String, key ≠ "input_ids" →
        pyDictGet out key = pyDictGet (encodePlus sequences) key) ∧
    (∃ ids ids2, pyDictGet (encodePlus sequences) "input_ids" = some ids ∧
        pt.transformTensor ids = some ids2 ∧ pyDictGet out "input_ids" = some ids2) := by
  simp only [PointerTokenizerState.batch_encode_vocabs_to_pointers] at hout
  cases hget : pyDictGet (encodePlus sequences) "input_ids" with
  | none =>
      rw [hget] at hout
      exact Option.noConfusion (show (none : Option (List (String × List Int)))
        = some out from hout)
  | some ids =>
      rw [hget] at hout
      obtain ⟨ids2, hids2, hout2⟩ := Option.map_eq_some'.mp hout
      subst hout2
      constructor
      · intro key hkey
        exact pyDictGet_insert_ne _ _ _ _ hkey
      · exact ⟨ids, ids2, rfl, hids2, pyDictGet_insert_self _ _ _⟩

theorem C8_batch_encode_frame_witness :
    (∀ key : String, key ≠ "input_ids" →
        pyDictGet [("input_ids", ([0, 8] : List Int)), ("attention_mask", [1, 1])] key
          = pyDictGet [("input_ids", ([8, 3] : List Int)), ("attention_mask", [1, 1])] key)
      ∧ pyDictGet [("input_ids", ([0, 8] : List Int)), ("attention_mask", [1, 1])]
          "input_ids" = some [0, 8] := by
  have hmain := C8_batch_encode_frame ptW
    (fun _ => [("input_ids", ([8, 3] : List Int)), ("attention_mask", [1, 1])]) ["hi"]
    [("input_ids", ([0, 8] : List Int)), ("attention_mask", [1, 1])] (by decide)
  refine ⟨fun key hkey => ?_, by decide⟩
  rw [hmain.1 key hkey]

/-- C10: each of `map_id_to_intent`, `map_id_to_slot`, `map_intent_to_id`,
`map_slot_to_id` is declared as a `property` whose getter requires an extra
positional argument beyond `self`, so reading the attribute always raises
`TypeError`; none of these accessors can ever return a value. -/
theorem C10_property_accessors_type_error (st : TokenizerState) :
    propertyGet map_id_to_intent st
      = Except.error "TypeError: missing a required positional argument" ∧
    propertyGet map_id_to_slot st
      = Except.error "TypeError: missing a required positional argument" ∧
    propertyGet map_intent_to_id st
      = Except.error "TypeError: missing a required positional argument" ∧
    propertyGet map_slot_to_id st
      = Except.error "TypeError: missing a required positional argument" :=
  ⟨rfl, rfl, rfl, rfl⟩

end PSP
